import Mathlib

/-!
Shallow embedding of the image acquisition and cache subsystem of the
`imflow` image browser (files `src/store.rs` and `src/image.rs`), together
with theorems checking the natural-language specification against it.

Modelling conventions:
* `HashMap<ImageData, ImflowImageBuffer>` is modelled as an association list
  in which earlier entries shadow later ones; all observations of the map in
  the source go through `get`/`get_mut`/`contains_key`, which correspond to
  `lookupA`/`updateRating`/`containsKey` below.
* `HashSet<ImageData>` is modelled as a `List ImageData`; the source only
  inserts an element when it is absent, so the list never holds duplicates.
* The worker pool is modelled by a log `submitted_jobs` of the decode jobs
  handed to `pool.execute`; the completion channel is modelled by passing the
  batch of completed `(ImageData, ImflowImageBuffer)` messages explicitly to
  `check_loaded_images`.
* File-system and codec effects (`load_image`, `load_thumbnail`, metadata
  access) are abstracted into an explicit environment `Env` of pure
  functions, with Boolean flags recording whether the metadata operations
  that the source `unwrap`s/`expect`s would succeed.
* A Rust `panic!`/`unwrap` failure is modelled by the `Outcome.panicked`
  constructor; a normal return is `Outcome.ok`.
* Rust `i32` arithmetic is modelled on `Int` with explicit wrapping modulo
  `2^32` (release-profile semantics).
-/

namespace Imflow

/-- Result of running a Rust function that can panic. -/
inductive Outcome (α : Type) where
  | ok (a : α)
  | panicked (msg : String)
deriving DecidableEq, Repr

/-- EXIF orientation values, as in the `image` crate's `Orientation` enum. -/
inductive Orientation where
  | NoTransforms
  | FlipHorizontal
  | FlipVertical
  | Rotate90
  | Rotate180
  | Rotate270
  | Rotate90FlipH
  | Rotate270FlipH
deriving DecidableEq, Repr

/-- Supported image formats (`ImageFormat` in `src/image.rs`). -/
inductive ImageFormat where
  | Jpg
  | Jxl
  | Heif
deriving DecidableEq, Repr

/-- Image identity (`ImageData` in `src/image.rs`): path, declared format,
embedded-thumbnail flag and orientation tag. -/
structure ImageData where
  path : String
  format : ImageFormat
  embedded_thumbnail : Bool
  orientation : Orientation
deriving DecidableEq, Repr

/-- Decoded pixel buffer (`ImflowImageBuffer` in `src/image.rs`). -/
structure ImflowImageBuffer where
  width : Nat
  height : Nat
  rgba_buffer : List Nat
  rating : Int
deriving DecidableEq, Repr

/-- Association-list lookup modelling `HashMap::get`. -/
def lookupA (m : List (ImageData × ImflowImageBuffer)) (k : ImageData) :
    Option ImflowImageBuffer :=
  match m with
  | [] => none
  | (k1, v) :: rest => if k1 = k then some v else lookupA rest k

/-- Modelling `HashMap::contains_key`. -/
def containsKey (m : List (ImageData × ImflowImageBuffer)) (k : ImageData) : Bool :=
  (lookupA m k).isSome

/-- Modelling `HashMap::insert` (new binding shadows any old one). -/
def insertA (m : List (ImageData × ImflowImageBuffer)) (k : ImageData)
    (v : ImflowImageBuffer) : List (ImageData × ImflowImageBuffer) :=
  (k, v) :: m

/-- Modelling `get_mut(..)` followed by `.rating = rating` on every binding
of the key (shadowed bindings update too, which is invisible to `lookupA`). -/
def updateRating : List (ImageData × ImflowImageBuffer) → ImageData → Int →
    List (ImageData × ImflowImageBuffer)
  | [], _, _ => []
  | (k1, v) :: rest, k, rating =>
    (k1, if k1 = k then { v with rating := rating } else v) ::
      updateRating rest k rating

/-- Modelling `HashSet::remove`. -/
def hashSetRemove (s : List ImageData) (p : ImageData) : List ImageData :=
  s.filter (fun q => decide (q ≠ p))

/-- Environment of external effects: decoding and metadata access.
`metaOk p` holds when `Metadata::new_from_path(p)` succeeds, and `saveOk p`
when `set_tag_numeric` followed by `save_to_file(p)` succeeds. -/
structure Env where
  loadImage : ImageData → ImflowImageBuffer
  loadThumbnail : ImageData → ImflowImageBuffer
  metaOk : String → Bool
  saveOk : String → Bool

/-- `PRELOAD_NEXT_IMAGE_N` in `src/store.rs`. -/
def PRELOAD_NEXT_IMAGE_N : Nat := 16

/-- The `ImageStore` state (`src/store.rs`), with the worker pool replaced
by the log of submitted decode jobs. -/
structure ImageStore where
  current_image_id : Nat
  loaded_images : List (ImageData × ImflowImageBuffer)
  loaded_images_thumbnails : List (ImageData × ImflowImageBuffer)
  available_images : List ImageData
  current_image_path : ImageData
  currently_loading : List ImageData
  submitted_jobs : List ImageData
deriving DecidableEq, Repr

/-- `ImageStore::request_load`: skip identities already cached or in flight;
otherwise record the identity as in flight and submit a decode job. -/
def requestLoad (s : ImageStore) (path : ImageData) : ImageStore :=
  if containsKey s.loaded_images path ∨ path ∈ s.currently_loading then s
  else
    { s with
      currently_loading := path :: s.currently_loading
      submitted_jobs := s.submitted_jobs ++ [path] }

/-- `ImageStore::preload_next_images`: request a load for the `n` identities
starting at the cursor (`skip(current_image_id).take(n)`). -/
def preloadNextImages (s : ImageStore) (n : Nat) : ImageStore :=
  ((s.available_images.drop s.current_image_id).take n).foldl requestLoad s

/-- `ImageStore::check_loaded_images`: drain the completion channel, moving
each completed decode into the full cache and out of the in-flight set. -/
def checkLoadedImages (s : ImageStore)
    (msgs : List (ImageData × ImflowImageBuffer)) : ImageStore :=
  msgs.foldl
    (fun t m =>
      { t with
        loaded_images := insertA t.loaded_images m.1 m.2
        currently_loading := hashSetRemove t.currently_loading m.1 })
    s

/-- Two's-complement wrap of an integer into the `i32` range (`as i32`,
release-profile overflow). -/
def intToI32 (n : Int) : Int := (n + 2 ^ 31) % 2 ^ 32 - 2 ^ 31

/-- Wrapping `i32` addition. -/
def i32WrapAdd (a b : Int) : Int := intToI32 (a + b)

/-- Rust `i32::clamp` (defined when `lo ≤ hi`; the caller panics otherwise). -/
def i32Clamp (x lo hi : Int) : Int := min (max x lo) hi

/-- The cursor value computed by `next_image`:
`(current_image_id as i32 + change).clamp(0, len as i32 - 1) as usize`. -/
def clampedIndex (s : ImageStore) (change : Int) : Nat :=
  (i32Clamp (i32WrapAdd (intToI32 (s.current_image_id : Int)) (intToI32 change))
    0 ((s.available_images.length : Int) - 1)).toNat

/-- `ImageStore::next_image`: clamp the moved cursor into range, request a
load for the new current identity when it is not cached, and re-run the
prefetch window. `Int::clamp` panics when the catalog is empty because then
`min > max`; indexing `available_images[new_id]` would also panic there. -/
def nextImage (s : ImageStore) (change : Int) : Outcome ImageStore :=
  if s.available_images.length = 0 then
    .panicked "assertion failed: min le max in clamp"
  else
    let newId : Nat := clampedIndex s change
    match s.available_images[newId]? with
    | none => .panicked "index out of bounds"
    | some new_path =>
      let s1 := { s with current_image_id := newId }
      let s2 := if containsKey s1.loaded_images new_path then s1
                else requestLoad s1 new_path
      let s3 := { s2 with current_image_path := new_path }
      .ok (preloadNextImages s3 PRELOAD_NEXT_IMAGE_N)

/-- `ImageStore::set_rating`: persist the rating into the file metadata
(`unwrap`/`panic!` on failure), then update the rating field in both cache
tiers for the current identity when present. -/
def setRating (env : Env) (s : ImageStore) (rating : Int) : Outcome ImageStore :=
  if env.metaOk s.current_image_path.path then
    if env.saveOk s.current_image_path.path then
      .ok
        { s with
          loaded_images := updateRating s.loaded_images s.current_image_path rating
          loaded_images_thumbnails :=
            updateRating s.loaded_images_thumbnails s.current_image_path rating }
    else .panicked "called unwrap on an Err value"
  else .panicked "metadata error"

/-- `ImageStore::get_current_image`. -/
def getCurrentImage (s : ImageStore) : Option ImflowImageBuffer :=
  lookupA s.loaded_images s.current_image_path

/-- `ImageStore::get_current_rating`: rating from the full-resolution entry
when present, else from the thumbnail entry; `unwrap` panics when neither
cache holds the current identity. -/
def getCurrentRating (s : ImageStore) : Outcome Int :=
  match getCurrentImage s with
  | some full => .ok full.rating
  | none =>
    match lookupA s.loaded_images_thumbnails s.current_image_path with
    | some thumbnail => .ok thumbnail.rating
    | none => .panicked "called unwrap on a None value"

/-- `ImageStore::get_thumbnail`: return the cached thumbnail for the current
identity, or decode one synchronously and insert it first. -/
def getThumbnail (env : Env) (s : ImageStore) : ImageStore × ImflowImageBuffer :=
  match lookupA s.loaded_images_thumbnails s.current_image_path with
  | some buf => (s, buf)
  | none =>
    let buf := env.loadThumbnail s.current_image_path
    ({ s with
        loaded_images_thumbnails :=
          insertA s.loaded_images_thumbnails s.current_image_path buf },
      buf)

/-- `ImageStore::new`, given the scanned catalog: panics by indexing
`available_images[0]` when the catalog is empty; otherwise synchronously
decodes every thumbnail, decodes the first full image, and runs the initial
prefetch window. -/
def storeNew (env : Env) (available : List ImageData) : Outcome ImageStore :=
  match available with
  | [] => .panicked "index out of bounds"
  | first :: _ =>
    let thumbs := available.map (fun p => (p, env.loadThumbnail p))
    let s : ImageStore :=
      { current_image_id := 0
        loaded_images := [(first, env.loadImage first)]
        loaded_images_thumbnails := thumbs
        available_images := available
        current_image_path := first
        currently_loading := []
        submitted_jobs := [] }
    .ok (preloadNextImages s PRELOAD_NEXT_IMAGE_N)

/-! Catalog scan (`load_available_images` and `get_format` in `src/image.rs`).
A directory entry carries the data the scan inspects: its path (used for
sorting), whether it is a regular file, its extension (if any, original
case), whether its metadata container is readable, and the metadata fields
extracted for retained entries. -/

/-- One directory entry as seen by the scan. -/
structure DirEntry where
  name : String
  is_file : Bool
  ext : Option String
  meta_ok : Bool
  embedded_thumbnail : Bool
  orientation : Orientation
deriving DecidableEq, Repr

/-- `OsStr::to_ascii_lowercase`: lowercase the ASCII letters only. -/
def asciiLowercase (s : String) : String :=
  String.mk (s.data.map Char.toLower)

/-- `get_format`: non-files yield `None`; for a file the source calls
`path.extension().unwrap()`, which panics when the file has no extension;
otherwise the lowercased extension is matched against the supported set. -/
def getFormat (e : DirEntry) : Outcome (Option ImageFormat) :=
  if e.is_file then
    match e.ext with
    | none => .panicked "called unwrap on a None value"
    | some ext =>
      let extension := asciiLowercase ext
      if extension = "heic" ∨ extension = "heif" then .ok (some .Heif)
      else if extension = "jpg" ∨ extension = "jpeg" then .ok (some .Jpg)
      else if extension = "jxl" then .ok (some .Jxl)
      else .ok none
  else .ok none

/-- The `ImageData` built from a retained directory entry. -/
def toImageData (e : DirEntry) (format : ImageFormat) : ImageData :=
  { path := e.name
    format := format
    embedded_thumbnail := e.embedded_thumbnail
    orientation := e.orientation }

/-- Body of the scan's `filter_map` closure: on a recognised format the
source reads the entry's metadata with `.expect(..)`, panicking when the
metadata is unreadable. -/
def scanEntry (e : DirEntry) : Outcome (Option ImageData) :=
  match getFormat e with
  | .panicked msg => .panicked msg
  | .ok none => .ok none
  | .ok (some format) =>
    if e.meta_ok then .ok (some (toImageData e format))
    else .panicked "Image has no metadata"

/-- Sequential `filter_map` over the sorted entries, stopping at the first
panic exactly as the lazy Rust iterator does. -/
def scanList : List DirEntry → Outcome (List ImageData)
  | [] => .ok []
  | e :: rest =>
    match scanEntry e with
    | .panicked msg => .panicked msg
    | .ok none => scanList rest
    | .ok (some d) =>
      match scanList rest with
      | .panicked msg => .panicked msg
      | .ok l => .ok (d :: l)

/-- Lexicographic comparison of filename characters, as `PathBuf` ordering
compares byte-wise. -/
def charListLE : List Char → List Char → Bool
  | [], _ => true
  | _ :: _, [] => false
  | a :: as, b :: bs =>
    if a.toNat < b.toNat then true
    else if b.toNat < a.toNat then false
    else charListLE as bs

/-- Lexicographic order on filename strings. -/
def strLE (a b : String) : Bool := charListLE a.data b.data

/-- Comparison used by `itertools::sorted` over the entry paths. -/
def entryLE (a b : DirEntry) : Prop := strLE a.name b.name = true

instance : DecidableRel entryLE :=
  fun a b => inferInstanceAs (Decidable (strLE a.name b.name = true))

/-- `itertools::sorted` over the entry paths, modelled as a stable sort by
filename (the source's sort is stable and keyed by the full path). -/
def sortEntries (entries : List DirEntry) : List DirEntry :=
  List.insertionSort entryLE entries

/-- `load_available_images`: list the directory, sort by path, then filter
and classify. -/
def load_available_images (entries : List DirEntry) : Outcome (List ImageData) :=
  scanList (sortEntries entries)

/-- The format a lone extension maps to, mirroring the extension tests of
`get_format`. -/
def extFormat (x : String) : Option ImageFormat :=
  let extension := asciiLowercase x
  if extension = "heic" ∨ extension = "heif" then some .Heif
  else if extension = "jpg" ∨ extension = "jpeg" then some .Jpg
  else if extension = "jxl" then some .Jxl
  else none

/-- The catalog entry an individual directory entry contributes: `none` for
non-files and unrecognised extensions, the classified `ImageData` otherwise.
Used to state what a panic-free scan returns. -/
def entryImage (e : DirEntry) : Option ImageData :=
  if e.is_file then e.ext.bind (fun x => (extFormat x).map (toImageData e))
  else none

/-! Codec dispatch (`src/image.rs`): the dimension handling of the JPEG
decode path. -/

/-- `swap_wh`: swap width and height for the four orientations in the
90-or-270-degree rotation family. -/
def swap_wh (width height : Nat) (orientation : Orientation) : Nat × Nat :=
  if [Orientation.Rotate90, Orientation.Rotate270,
      Orientation.Rotate90FlipH, Orientation.Rotate270FlipH].contains orientation
  then (height, width)
  else (width, height)

/-- The JPEG branch of `load_image`, abstracted over the raw decode: the
decoder reports raw dimensions `rawW × rawH`, the orientation transform is
applied to the pixels, and the returned buffer carries `swap_wh` of the raw
dimensions. -/
def load_image_jpg (rawW rawH : Nat) (rgba : List Nat) (rating : Int)
    (orientation : Orientation) : ImflowImageBuffer :=
  let wh := swap_wh rawW rawH orientation
  { width := wh.1
    height := wh.2
    rgba_buffer := rgba
    rating := rating }

/-! States reachable through the store's public interface. -/

/-- A store state is reachable when it arises from `ImageStore::new` on some
scanned catalog followed by any sequence of public operations (navigation,
rating, prefetching, draining completions, thumbnail access). -/
inductive Reachable (env : Env) : ImageStore → Prop where
  | init {avail s} : storeNew env avail = .ok s → Reachable env s
  | next {s d s1} : Reachable env s → nextImage s d = .ok s1 → Reachable env s1
  | load {s p} : Reachable env s → Reachable env (requestLoad s p)
  | preload {s n} : Reachable env s → Reachable env (preloadNextImages s n)
  | rate {s r s1} : Reachable env s → setRating env s r = .ok s1 → Reachable env s1
  | check {s msgs} : Reachable env s → Reachable env (checkLoadedImages s msgs)
  | thumb {s} : Reachable env s → Reachable env (getThumbnail env s).1

/-- The store invariant: the cursor indexes the catalog, the current
identity is the catalog entry at the cursor, and every catalog identity has
a thumbnail cache entry. -/
def StoreInv (s : ImageStore) : Prop :=
  s.current_image_id < s.available_images.length ∧
  s.available_images[s.current_image_id]? = some s.current_image_path ∧
  ∀ p ∈ s.available_images, containsKey s.loaded_images_thumbnails p = true

/-- An identity whose decode has been requested: present in the full cache
or in the in-flight set. -/
def loadedOrInflight (s : ImageStore) (p : ImageData) : Prop :=
  containsKey s.loaded_images p = true ∨ p ∈ s.currently_loading

/-! Concrete fixtures used by the witness theorems. -/

/-- A concrete decoded buffer. -/
def sampleBuf : ImflowImageBuffer :=
  { width := 1, height := 1, rgba_buffer := [0], rating := 0 }

/-- The same buffer with rating 5. -/
def sampleBuf5 : ImflowImageBuffer :=
  { width := 1, height := 1, rgba_buffer := [0], rating := 5 }

/-- A concrete JPEG identity. -/
def sampleImage : ImageData :=
  { path := "a.jpg", format := .Jpg, embedded_thumbnail := false,
    orientation := .NoTransforms }

/-- An environment whose decodes yield `sampleBuf` and whose metadata
operations always succeed. -/
def sampleEnv : Env :=
  { loadImage := fun _ => sampleBuf
    loadThumbnail := fun _ => sampleBuf
    metaOk := fun _ => true
    saveOk := fun _ => true }

/-- An environment whose metadata reads fail. -/
def failEnv : Env :=
  { sampleEnv with metaOk := fun _ => false }

/-- The store built by `ImageStore::new` on the one-image catalog
`[sampleImage]` under `sampleEnv`. -/
def store1 : ImageStore :=
  { current_image_id := 0
    loaded_images := [(sampleImage, sampleBuf)]
    loaded_images_thumbnails := [(sampleImage, sampleBuf)]
    available_images := [sampleImage]
    current_image_path := sampleImage
    currently_loading := []
    submitted_jobs := [] }

/-- `store1` after `set_rating(5)`. -/
def store1Rated : ImageStore :=
  { store1 with
    loaded_images := [(sampleImage, sampleBuf5)]
    loaded_images_thumbnails := [(sampleImage, sampleBuf5)] }

/-- A second concrete JPEG identity. -/
def bImage : ImageData :=
  { path := "b.jpg", format := .Jpg, embedded_thumbnail := false,
    orientation := .NoTransforms }

/-- The store built by `ImageStore::new` on the catalog
`[sampleImage, bImage]` under `sampleEnv`: the second image's decode is in
flight after the initial prefetch. -/
def store2 : ImageStore :=
  { current_image_id := 0
    loaded_images := [(sampleImage, sampleBuf)]
    loaded_images_thumbnails := [(sampleImage, sampleBuf), (bImage, sampleBuf)]
    available_images := [sampleImage, bImage]
    current_image_path := sampleImage
    currently_loading := [bImage]
    submitted_jobs := [bImage] }

/-- A regular file with no extension at all. -/
def extensionlessEntry : DirEntry :=
  { name := "noext", is_file := true, ext := none, meta_ok := true,
    embedded_thumbnail := false, orientation := .NoTransforms }

/-- A JPEG entry whose metadata container cannot be read. -/
def badMetaEntry : DirEntry :=
  { name := "a.jpg", is_file := true, ext := some "jpg", meta_ok := false,
    embedded_thumbnail := false, orientation := .NoTransforms }

/-- A healthy JPEG entry. -/
def goodJpgEntry : DirEntry :=
  { name := "b.jpg", is_file := true, ext := some "jpg", meta_ok := true,
    embedded_thumbnail := false, orientation := .NoTransforms }

/-- A JPEG entry with an uppercase extension. -/
def upperJpgEntry : DirEntry :=
  { name := "c.JPG", is_file := true, ext := some "JPG", meta_ok := true,
    embedded_thumbnail := false, orientation := .NoTransforms }

/-- A text file, to be dropped by the scan. -/
def textEntry : DirEntry :=
  { name := "d.txt", is_file := true, ext := some "txt", meta_ok := true,
    embedded_thumbnail := false, orientation := .NoTransforms }

/-- A sub-directory, to be dropped by the scan. -/
def subdirEntry : DirEntry :=
  { name := "e", is_file := false, ext := none, meta_ok := true,
    embedded_thumbnail := false, orientation := .NoTransforms }

/-- A store state whose catalog is empty, as `ImageStore::new` would have to
build for a directory with zero matching files. -/
def emptyStore : ImageStore :=
  { current_image_id := 0
    loaded_images := []
    loaded_images_thumbnails := []
    available_images := []
    current_image_path := sampleImage
    currently_loading := []
    submitted_jobs := [] }

/-! Helper lemmas about the association-list caches. -/

theorem lookupA_insertA (m : List (ImageData × ImflowImageBuffer)) (k : ImageData)
    (v : ImflowImageBuffer) (q : ImageData) :
    lookupA (insertA m k v) q = if k = q then some v else lookupA m q := rfl

theorem containsKey_insertA_mono {m : List (ImageData × ImflowImageBuffer)}
    {q : ImageData} (h : containsKey m q = true) (k : ImageData)
    (v : ImflowImageBuffer) : containsKey (insertA m k v) q = true := by
  unfold containsKey at h ⊢
  rw [lookupA_insertA]
  split
  · rfl
  · exact h

theorem lookupA_updateRating_self (m : List (ImageData × ImflowImageBuffer))
    (k : ImageData) (r : Int) :
    lookupA (updateRating m k r) k =
      Option.map (fun b => { b with rating := r }) (lookupA m k) := by
  induction m with
  | nil => rfl
  | cons e rest ih =>
    obtain ⟨k1, v⟩ := e
    by_cases hek : k1 = k
    · simp [updateRating, lookupA, hek]
    · simp [updateRating, lookupA, hek, ih]

theorem containsKey_updateRating (m : List (ImageData × ImflowImageBuffer))
    (k : ImageData) (r : Int) (q : ImageData) :
    containsKey (updateRating m k r) q = containsKey m q := by
  induction m with
  | nil => rfl
  | cons e rest ih =>
    obtain ⟨k1, v⟩ := e
    by_cases heq : k1 = q
    · simp [updateRating, containsKey, lookupA, heq]
    · simp only [updateRating, containsKey, lookupA, if_neg heq]
      simpa [containsKey] using ih

theorem containsKey_map_pair {l : List ImageData} (f : ImageData → ImflowImageBuffer)
    {p : ImageData} (hp : p ∈ l) :
    containsKey (l.map fun q => (q, f q)) p = true := by
  induction l with
  | nil => cases hp
  | cons a rest ih =>
    rcases List.mem_cons.mp hp with rfl | hp
    · simp [containsKey, lookupA]
    · by_cases hap : a = p
      · simp [containsKey, lookupA, hap]
      · simp only [List.map_cons, containsKey, lookupA, if_neg hap]
        exact ih hp

/-! Helper lemmas about the store operations. -/

theorem requestLoad_fields (s : ImageStore) (p : ImageData) :
    (requestLoad s p).current_image_id = s.current_image_id ∧
    (requestLoad s p).available_images = s.available_images ∧
    (requestLoad s p).current_image_path = s.current_image_path ∧
    (requestLoad s p).loaded_images_thumbnails = s.loaded_images_thumbnails := by
  unfold requestLoad
  split <;> exact ⟨rfl, rfl, rfl, rfl⟩

theorem foldl_requestLoad_fields (l : List ImageData) (s : ImageStore) :
    (l.foldl requestLoad s).current_image_id = s.current_image_id ∧
    (l.foldl requestLoad s).available_images = s.available_images ∧
    (l.foldl requestLoad s).current_image_path = s.current_image_path ∧
    (l.foldl requestLoad s).loaded_images_thumbnails = s.loaded_images_thumbnails := by
  induction l generalizing s with
  | nil => exact ⟨rfl, rfl, rfl, rfl⟩
  | cons p rest ih =>
    obtain ⟨h1, h2, h3, h4⟩ := requestLoad_fields s p
    obtain ⟨g1, g2, g3, g4⟩ := ih (requestLoad s p)
    exact ⟨g1.trans h1, g2.trans h2, g3.trans h3, g4.trans h4⟩

theorem preloadNextImages_fields (s : ImageStore) (n : Nat) :
    (preloadNextImages s n).current_image_id = s.current_image_id ∧
    (preloadNextImages s n).available_images = s.available_images ∧
    (preloadNextImages s n).current_image_path = s.current_image_path ∧
    (preloadNextImages s n).loaded_images_thumbnails = s.loaded_images_thumbnails :=
  foldl_requestLoad_fields _ s

theorem checkLoadedImages_fields (msgs : List (ImageData × ImflowImageBuffer))
    (s : ImageStore) :
    (checkLoadedImages s msgs).current_image_id = s.current_image_id ∧
    (checkLoadedImages s msgs).available_images = s.available_images ∧
    (checkLoadedImages s msgs).current_image_path = s.current_image_path ∧
    (checkLoadedImages s msgs).loaded_images_thumbnails = s.loaded_images_thumbnails := by
  induction msgs generalizing s with
  | nil => exact ⟨rfl, rfl, rfl, rfl⟩
  | cons m rest ih =>
    obtain ⟨g1, g2, g3, g4⟩ := ih
      { s with
        loaded_images := insertA s.loaded_images m.1 m.2
        currently_loading := hashSetRemove s.currently_loading m.1 }
    exact ⟨g1, g2, g3, g4⟩

theorem setRating_ok {env : Env} {s : ImageStore} {r : Int} {s1 : ImageStore}
    (h : setRating env s r = .ok s1) :
    s1 = { s with
      loaded_images := updateRating s.loaded_images s.current_image_path r
      loaded_images_thumbnails :=
        updateRating s.loaded_images_thumbnails s.current_image_path r } := by
  unfold setRating at h
  split at h
  · split at h
    · injection h with h
      exact h.symm
    · cases h
  · cases h

theorem getThumbnail_fields (env : Env) (s : ImageStore) :
    (getThumbnail env s).1.current_image_id = s.current_image_id ∧
    (getThumbnail env s).1.available_images = s.available_images ∧
    (getThumbnail env s).1.current_image_path = s.current_image_path ∧
    (getThumbnail env s).1.loaded_images = s.loaded_images ∧
    (getThumbnail env s).1.currently_loading = s.currently_loading ∧
    ∀ q, containsKey s.loaded_images_thumbnails q = true →
      containsKey (getThumbnail env s).1.loaded_images_thumbnails q = true := by
  unfold getThumbnail
  split
  · exact ⟨rfl, rfl, rfl, rfl, rfl, fun q h => h⟩
  · exact ⟨rfl, rfl, rfl, rfl, rfl, fun q h => containsKey_insertA_mono h _ _⟩

theorem requestLoad_loadedOrInflight_self (s : ImageStore) (p : ImageData) :
    loadedOrInflight (requestLoad s p) p := by
  unfold requestLoad
  split
  · next h => exact h
  · exact Or.inr (List.mem_cons_self p _)

theorem requestLoad_loadedOrInflight_mono {s : ImageStore} {q : ImageData}
    (h : loadedOrInflight s q) (p : ImageData) :
    loadedOrInflight (requestLoad s p) q := by
  unfold requestLoad
  split
  · exact h
  · rcases h with h | h
    · exact Or.inl h
    · exact Or.inr (List.mem_cons_of_mem _ h)

theorem foldl_requestLoad_covers (l : List ImageData) (s : ImageStore) :
    (∀ q, loadedOrInflight s q → loadedOrInflight (l.foldl requestLoad s) q) ∧
    ∀ q ∈ l, loadedOrInflight (l.foldl requestLoad s) q := by
  induction l generalizing s with
  | nil => exact ⟨fun _ h => h, fun q hq => absurd hq (List.not_mem_nil q)⟩
  | cons p rest ih =>
    refine ⟨fun q h =>
      (ih (requestLoad s p)).1 q (requestLoad_loadedOrInflight_mono h p), ?_⟩
    intro q hq
    rcases List.mem_cons.mp hq with rfl | hq
    · exact (ih (requestLoad s q)).1 q (requestLoad_loadedOrInflight_self s q)
    · exact (ih (requestLoad s p)).2 q hq

theorem get_mem_window {l : List ImageData} {c n i : Nat} (h1 : c ≤ i)
    (h2 : i < c + n) (h3 : i < l.length) :
    l[i] ∈ (l.drop c).take n := by
  have hd : i - c < (l.drop c).length := by
    rw [List.length_drop]; omega
  have ht : i - c < ((l.drop c).take n).length := by
    rw [List.length_take, List.length_drop]; omega
  have he : ((l.drop c).take n)[i - c] = l[i] := by
    rw [List.getElem_take, List.getElem_drop]
    simp only [show c + (i - c) = i from by omega]
  rw [← he]
  exact List.getElem_mem ht

theorem clampedIndex_lt {s : ImageStore} (hne : ¬ s.available_images.length = 0)
    (d : Int) : clampedIndex s d < s.available_images.length := by
  unfold clampedIndex i32Clamp
  have h1 : min (max (i32WrapAdd (intToI32 (s.current_image_id : Int)) (intToI32 d)) 0)
      ((s.available_images.length : Int) - 1) ≤ (s.available_images.length : Int) - 1 :=
    min_le_right _ _
  generalize hz :
    min (max (i32WrapAdd (intToI32 (s.current_image_id : Int)) (intToI32 d)) 0)
      ((s.available_images.length : Int) - 1) = z at h1 ⊢
  omega

theorem preload_props (t : ImageStore) :
    (preloadNextImages t PRELOAD_NEXT_IMAGE_N).current_image_id =
      t.current_image_id ∧
    (preloadNextImages t PRELOAD_NEXT_IMAGE_N).available_images =
      t.available_images ∧
    (preloadNextImages t PRELOAD_NEXT_IMAGE_N).current_image_path =
      t.current_image_path ∧
    (preloadNextImages t PRELOAD_NEXT_IMAGE_N).loaded_images_thumbnails =
      t.loaded_images_thumbnails ∧
    ∀ i : Nat, t.current_image_id ≤ i →
      i < t.current_image_id + PRELOAD_NEXT_IMAGE_N →
      ∀ hi : i < t.available_images.length,
        loadedOrInflight (preloadNextImages t PRELOAD_NEXT_IMAGE_N)
          (t.available_images[i]) := by
  obtain ⟨f1, f2, f3, f4⟩ := preloadNextImages_fields t PRELOAD_NEXT_IMAGE_N
  refine ⟨f1, f2, f3, f4, ?_⟩
  intro i h1 h2 hi
  exact (foldl_requestLoad_covers _ t).2 _ (get_mem_window h1 h2 hi)

theorem nextImage_ok {s : ImageStore} (hne : ¬ s.available_images.length = 0)
    (d : Int) :
    ∃ s1, nextImage s d = .ok s1 ∧
      s1.available_images = s.available_images ∧
      s1.loaded_images_thumbnails = s.loaded_images_thumbnails ∧
      s1.current_image_id < s1.available_images.length ∧
      s1.available_images[s1.current_image_id]? = some s1.current_image_path ∧
      ∀ i : Nat, s1.current_image_id ≤ i →
        i < s1.current_image_id + PRELOAD_NEXT_IMAGE_N →
        ∀ hi : i < s1.available_images.length,
          loadedOrInflight s1 (s1.available_images[i]) := by
  have hlt := clampedIndex_lt hne d
  unfold nextImage
  simp only [if_neg hne, List.getElem?_eq_getElem hlt]
  by_cases hc : containsKey
      { s with current_image_id := clampedIndex s d }.loaded_images
      (s.available_images[clampedIndex s d]) = true
  · rw [if_pos hc]
    refine ⟨_, rfl, ?_, ?_, ?_, ?_, ?_⟩
    · exact (preload_props _).2.1
    · exact (preload_props _).2.2.2.1
    · obtain ⟨p1, p2, _, _, _⟩ := preload_props
        { s with
          current_image_id := clampedIndex s d
          current_image_path := s.available_images[clampedIndex s d] }
      rw [p1, p2]
      exact hlt
    · obtain ⟨p1, p2, p3, _, _⟩ := preload_props
        { s with
          current_image_id := clampedIndex s d
          current_image_path := s.available_images[clampedIndex s d] }
      rw [p1, p2, p3]
      exact List.getElem?_eq_getElem hlt
    · intro i h1 h2 hi
      obtain ⟨p1, p2, _, _, p5⟩ := preload_props
        { s with
          current_image_id := clampedIndex s d
          current_image_path := s.available_images[clampedIndex s d] }
      rw [p1] at h1 h2
      simp only [p2] at hi ⊢
      exact p5 i h1 h2 hi
  · rw [if_neg hc]
    obtain ⟨r1, r2, r3, r4⟩ := requestLoad_fields
      { s with current_image_id := clampedIndex s d }
      (s.available_images[clampedIndex s d])
    refine ⟨_, rfl, ?_, ?_, ?_, ?_, ?_⟩
    · exact ((preload_props _).2.1).trans r2
    · exact ((preload_props _).2.2.2.1).trans r4
    · obtain ⟨p1, p2, _, _, _⟩ := preload_props
        { requestLoad { s with current_image_id := clampedIndex s d }
            (s.available_images[clampedIndex s d]) with
          current_image_path := s.available_images[clampedIndex s d] }
      rw [p1, p2]
      show (requestLoad _ _).current_image_id <
        (requestLoad _ _).available_images.length
      rw [r1, r2]
      exact hlt
    · obtain ⟨p1, p2, p3, _, _⟩ := preload_props
        { requestLoad { s with current_image_id := clampedIndex s d }
            (s.available_images[clampedIndex s d]) with
          current_image_path := s.available_images[clampedIndex s d] }
      rw [p1, p2, p3]
      show (requestLoad _ _).available_images[(requestLoad _ _).current_image_id]?
        = some (s.available_images[clampedIndex s d])
      rw [r1, r2]
      exact List.getElem?_eq_getElem hlt
    · intro i h1 h2 hi
      obtain ⟨p1, p2, _, _, p5⟩ := preload_props
        { requestLoad { s with current_image_id := clampedIndex s d }
            (s.available_images[clampedIndex s d]) with
          current_image_path := s.available_images[clampedIndex s d] }
      rw [p1] at h1 h2
      simp only [p2] at hi ⊢
      exact p5 i h1 h2 hi

theorem storeNew_ok {env : Env} {avail : List ImageData} {s : ImageStore}
    (h : storeNew env avail = .ok s) :
    s.current_image_id = 0 ∧
    s.available_images = avail ∧
    0 < avail.length ∧
    s.available_images[s.current_image_id]? = some s.current_image_path ∧
    s.loaded_images_thumbnails = avail.map (fun p => (p, env.loadThumbnail p)) ∧
    ∀ i : Nat, i < PRELOAD_NEXT_IMAGE_N → ∀ hi : i < avail.length,
      loadedOrInflight s (avail[i]) := by
  cases avail with
  | nil => exact Outcome.noConfusion h
  | cons first rest =>
    unfold storeNew at h
    injection h with h
    subst h
    obtain ⟨p1, p2, p3, p4, p5⟩ := preload_props
      { current_image_id := 0
        loaded_images := [(first, env.loadImage first)]
        loaded_images_thumbnails :=
          (first :: rest).map (fun p => (p, env.loadThumbnail p))
        available_images := first :: rest
        current_image_path := first
        currently_loading := []
        submitted_jobs := [] }
    refine ⟨p1, p2, by simp, ?_, p4, ?_⟩
    · rw [p1, p2, p3]
      simp
    · intro i h1 hi
      exact p5 i (Nat.zero_le i) (by omega) hi

theorem reachable_inv {env : Env} {s : ImageStore} (h : Reachable env s) :
    StoreInv s := by
  induction h with
  | init h0 =>
    obtain ⟨h1, h2, h3, h4, h5, _⟩ := storeNew_ok h0
    refine ⟨?_, h4, ?_⟩
    · rw [h1, h2]; exact h3
    · intro p hp
      rw [h5]
      exact containsKey_map_pair _ (by rwa [h2] at hp)
  | next hr hstep ih =>
    rename_i s d s1
    obtain ⟨i1, i2, i3⟩ := ih
    have hne : ¬ s.available_images.length = 0 := by omega
    obtain ⟨s2, heq, g1, g2, g3, g4, _⟩ := nextImage_ok hne d
    rw [hstep] at heq
    injection heq with heq
    subst heq
    refine ⟨g3, g4, ?_⟩
    intro q hq
    rw [g2]
    exact i3 q (g1 ▸ hq)
  | load hr ih =>
    rename_i s p
    obtain ⟨f1, f2, f3, f4⟩ := requestLoad_fields s p
    refine ⟨?_, ?_, ?_⟩
    · rw [f1, f2]; exact ih.1
    · rw [f1, f2, f3]; exact ih.2.1
    · intro q hq
      rw [f4]
      exact ih.2.2 q (by rwa [f2] at hq)
  | preload hr ih =>
    rename_i s n
    obtain ⟨f1, f2, f3, f4⟩ := preloadNextImages_fields s n
    refine ⟨?_, ?_, ?_⟩
    · rw [f1, f2]; exact ih.1
    · rw [f1, f2, f3]; exact ih.2.1
    · intro q hq
      rw [f4]
      exact ih.2.2 q (by rwa [f2] at hq)
  | rate hr hstep ih =>
    rename_i s r s1
    rw [setRating_ok hstep]
    refine ⟨ih.1, ih.2.1, ?_⟩
    intro q hq
    show containsKey
      (updateRating s.loaded_images_thumbnails s.current_image_path r) q = true
    rw [containsKey_updateRating]
    exact ih.2.2 q hq
  | check hr ih =>
    rename_i s msgs
    obtain ⟨f1, f2, f3, f4⟩ := checkLoadedImages_fields msgs s
    refine ⟨?_, ?_, ?_⟩
    · rw [f1, f2]; exact ih.1
    · rw [f1, f2, f3]; exact ih.2.1
    · intro q hq
      rw [f4]
      exact ih.2.2 q (by rwa [f2] at hq)
  | thumb hr ih =>
    rename_i s
    obtain ⟨f1, f2, f3, f4, f5, f6⟩ := getThumbnail_fields env s
    refine ⟨?_, ?_, ?_⟩
    · rw [f1, f2]; exact ih.1
    · rw [f1, f2, f3]; exact ih.2.1
    · intro q hq
      exact f6 q (ih.2.2 q (by rwa [f2] at hq))

/-! Helper lemmas about the catalog scan. -/

theorem charListLE_total (as bs : List Char) :
    charListLE as bs = true ∨ charListLE bs as = true := by
  induction as generalizing bs with
  | nil => left; rfl
  | cons a as ih =>
    cases bs with
    | nil => right; rfl
    | cons b bs =>
      by_cases h1 : a.toNat < b.toNat
      · left; simp [charListLE, h1]
      · by_cases h2 : b.toNat < a.toNat
        · right; simp [charListLE, h1, h2]
        · rcases ih bs with h | h
          · left; simp [charListLE, h1, h2, h]
          · right; simp [charListLE, h1, h2, h]

theorem charListLE_trans {as bs cs : List Char} (h1 : charListLE as bs = true)
    (h2 : charListLE bs cs = true) : charListLE as cs = true := by
  induction as generalizing bs cs with
  | nil => rfl
  | cons a as ih =>
    cases bs with
    | nil => simp [charListLE] at h1
    | cons b bs =>
      cases cs with
      | nil => simp [charListLE] at h2
      | cons c cs =>
        simp only [charListLE] at h1 h2 ⊢
        by_cases hab : a.toNat < b.toNat
        · by_cases hbc : b.toNat < c.toNat
          · have hac : a.toNat < c.toNat := lt_trans hab hbc
            simp [hac]
          · by_cases hcb : c.toNat < b.toNat
            · rw [if_neg hbc, if_pos hcb] at h2
              cases h2
            · have hac : a.toNat < c.toNat := by omega
              simp [hac]
        · by_cases hba : b.toNat < a.toNat
          · rw [if_neg hab, if_pos hba] at h1
            cases h1
          · by_cases hbc : b.toNat < c.toNat
            · have hac : a.toNat < c.toNat := by omega
              simp [hac]
            · by_cases hcb : c.toNat < b.toNat
              · rw [if_neg hbc, if_pos hcb] at h2
                cases h2
              · rw [if_neg hab, if_neg hba] at h1
                rw [if_neg hbc, if_neg hcb] at h2
                have hac1 : ¬ a.toNat < c.toNat := by omega
                have hac2 : ¬ c.toNat < a.toNat := by omega
                rw [if_neg hac1, if_neg hac2]
                exact ih h1 h2

theorem getFormat_eq_extFormat {e : DirEntry} (hf : e.is_file = true)
    {x : String} (hx : e.ext = some x) : getFormat e = .ok (extFormat x) := by
  by_cases h1 : asciiLowercase x = "heic" ∨ asciiLowercase x = "heif"
  · simp [getFormat, extFormat, hf, hx, h1]
  · by_cases h2 : asciiLowercase x = "jpg" ∨ asciiLowercase x = "jpeg"
    · simp [getFormat, extFormat, hf, hx, h1, h2]
    · by_cases h3 : asciiLowercase x = "jxl"
      · simp [getFormat, extFormat, hf, hx, h1, h2, h3]
      · simp [getFormat, extFormat, hf, hx, h1, h2, h3]

theorem path_of_entryImage {e : DirEntry} {x : ImageData}
    (h : x ∈ entryImage e) : x.path = e.name := by
  rw [Option.mem_def] at h
  unfold entryImage at h
  by_cases hf : e.is_file = true
  · rw [if_pos hf] at h
    cases hx : e.ext with
    | none =>
      rw [hx] at h
      exact Option.noConfusion h
    | some s =>
      rw [hx, Option.some_bind] at h
      cases hfx : extFormat s with
      | none =>
        rw [hfx] at h
        exact Option.noConfusion h
      | some f =>
        rw [hfx] at h
        injection h with h
        rw [← h]
        rfl
  · rw [if_neg hf] at h
    exact Option.noConfusion h

theorem scanEntry_eq_of_wellformed {e : DirEntry}
    (hext : e.is_file = true → e.ext ≠ none)
    (hmeta : (entryImage e).isSome = true → e.meta_ok = true) :
    scanEntry e = .ok (entryImage e) := by
  by_cases hf : e.is_file = true
  · obtain ⟨x, hx⟩ : ∃ x, e.ext = some x := by
      cases hxe : e.ext with
      | none => exact absurd hxe (hext hf)
      | some x => exact ⟨x, rfl⟩
    have hg := getFormat_eq_extFormat hf hx
    have hei : entryImage e = (extFormat x).map (toImageData e) := by
      unfold entryImage
      rw [if_pos hf, hx]
      rfl
    unfold scanEntry
    rw [hg, hei]
    cases hfx : extFormat x with
    | none => rfl
    | some f =>
      have hm : e.meta_ok = true := by
        apply hmeta
        rw [hei, hfx]
        rfl
      show (if e.meta_ok = true then
        Outcome.ok (some (toImageData e f)) else
        Outcome.panicked "Image has no metadata") = _
      rw [if_pos hm]
      rfl
  · unfold scanEntry getFormat entryImage
    rw [if_neg hf, if_neg hf]

theorem scanList_eq_of_wellformed {l : List DirEntry}
    (hext : ∀ e ∈ l, e.is_file = true → e.ext ≠ none)
    (hmeta : ∀ e ∈ l, (entryImage e).isSome = true → e.meta_ok = true) :
    scanList l = .ok (l.filterMap entryImage) := by
  induction l with
  | nil => rfl
  | cons e rest ih =>
    have hse := scanEntry_eq_of_wellformed (hext e (List.mem_cons_self e rest))
      (hmeta e (List.mem_cons_self e rest))
    have ihr := ih (fun q hq => hext q (List.mem_cons_of_mem e hq))
      (fun q hq => hmeta q (List.mem_cons_of_mem e hq))
    unfold scanList
    rw [hse, List.filterMap_cons]
    cases hei : entryImage e with
    | none =>
      simp only [hei]
      exact ihr
    | some d =>
      simp only [hei, ihr]

theorem length_filterMap_eq_countP (l : List DirEntry) :
    (l.filterMap entryImage).length =
      l.countP (fun e => (entryImage e).isSome) := by
  induction l with
  | nil => rfl
  | cons e rest ih =>
    rw [List.filterMap_cons, List.countP_cons]
    cases hei : entryImage e with
    | none => simp [hei, ih]
    | some d => simp [hei, ih]

theorem requestLoad_of_loadedOrInflight {s : ImageStore} {p : ImageData}
    (h : loadedOrInflight s p) : requestLoad s p = s := by
  unfold requestLoad
  split
  · rfl
  · next hn => exact absurd h hn

theorem current_mem_of_inv {s : ImageStore} (h : StoreInv s) :
    s.current_image_path ∈ s.available_images := by
  obtain ⟨h1, h2, _⟩ := h
  obtain ⟨hh, he⟩ := List.getElem?_eq_some_iff.mp h2
  exact he ▸ List.getElem_mem hh

/-! The claims. -/

/-- C1: `request_load` is a no-op whenever the identity is already present
in the full-resolution cache or in the in-flight set, and requesting the
same identity twice from any store state equals requesting it once, so at
most one decode job is ever submitted for an identity while it is pending. -/
theorem request_load_dedup (s : ImageStore) (p : ImageData) :
    (loadedOrInflight s p → requestLoad s p = s) ∧
    requestLoad (requestLoad s p) p = requestLoad s p :=
  ⟨requestLoad_of_loadedOrInflight,
    requestLoad_of_loadedOrInflight (requestLoad_loadedOrInflight_self s p)⟩

/-- C1 witness: deduplication observed on the concrete two-image store whose
second image is in flight. -/
theorem request_load_dedup_witness :
    requestLoad store2 bImage = store2 ∧
    requestLoad (requestLoad store2 bImage) bImage = requestLoad store2 bImage :=
  ⟨(request_load_dedup store2 bImage).1 (Or.inr (by decide)),
    (request_load_dedup store2 bImage).2⟩

/-- C2: on any store whose catalog is non-empty, `next_image(delta)` leaves
the cursor inside `[0, length-1]` and the current identity equal to
`available_images[cursor]`, for a delta of any sign and magnitude; and on
every state reachable through the public operations the same cursor
invariant holds. -/
theorem next_image_cursor_in_range :
    (∀ (s : ImageStore) (d : Int), s.available_images ≠ [] →
      ∃ s1, nextImage s d = .ok s1 ∧
        s1.current_image_id < s1.available_images.length ∧
        s1.available_images[s1.current_image_id]? = some s1.current_image_path) ∧
    ∀ (env : Env) (s : ImageStore), Reachable env s →
      s.current_image_id < s.available_images.length ∧
      s.available_images[s.current_image_id]? = some s.current_image_path := by
  constructor
  · intro s d hne
    have hne' : ¬ s.available_images.length = 0 :=
      fun hlen => hne (List.length_eq_zero.mp hlen)
    obtain ⟨s1, heq, _, _, g3, g4, _⟩ := nextImage_ok hne' d
    exact ⟨s1, heq, g3, g4⟩
  · intro env s h
    obtain ⟨i1, i2, _⟩ := reachable_inv h
    exact ⟨i1, i2⟩

/-- C2 witness: a far negative move from the one-image store stays clamped
at cursor 0, and the freshly constructed store satisfies the invariant. -/
theorem next_image_cursor_in_range_witness :
    (∃ s1, nextImage store1 (-100) = .ok s1 ∧
      s1.current_image_id < s1.available_images.length ∧
      s1.available_images[s1.current_image_id]? = some s1.current_image_path) ∧
    (store1.current_image_id < store1.available_images.length ∧
      store1.available_images[store1.current_image_id]? =
        some store1.current_image_path) :=
  ⟨next_image_cursor_in_range.1 store1 (-100) (by decide),
    next_image_cursor_in_range.2 sampleEnv store1
      (@Reachable.init sampleEnv [sampleImage] store1 rfl)⟩

/-- C3: when `set_rating(r)` succeeds on a reachable store,
`get_current_rating()` returns `r` immediately: no new decode job is
submitted and the in-flight set is untouched, because the rating field is
updated in both cache tiers for the current identity. -/
theorem set_rating_immediately_visible {env : Env} {s : ImageStore} {r : Int}
    {s1 : ImageStore} (h : Reachable env s)
    (hset : setRating env s r = .ok s1) :
    getCurrentRating s1 = .ok r ∧
    s1.submitted_jobs = s.submitted_jobs ∧
    s1.currently_loading = s.currently_loading := by
  have hinv := reachable_inv h
  have hthumb : containsKey s.loaded_images_thumbnails s.current_image_path = true :=
    hinv.2.2 _ (current_mem_of_inv hinv)
  rw [setRating_ok hset]
  refine ⟨?_, rfl, rfl⟩
  unfold getCurrentRating getCurrentImage
  dsimp only
  rw [lookupA_updateRating_self, lookupA_updateRating_self]
  cases hl : lookupA s.loaded_images s.current_image_path with
  | some full => simp [hl]
  | none =>
    obtain ⟨b, hb⟩ : ∃ b,
        lookupA s.loaded_images_thumbnails s.current_image_path = some b := by
      unfold containsKey at hthumb
      cases hx : lookupA s.loaded_images_thumbnails s.current_image_path with
      | some b => exact ⟨b, rfl⟩
      | none => rw [hx] at hthumb; cases hthumb
    simp [hl, hb]

/-- C3 witness: rating 5 on the one-image store is visible at once. -/
theorem set_rating_immediately_visible_witness :
    getCurrentRating store1Rated = .ok 5 ∧
    store1Rated.submitted_jobs = store1.submitted_jobs ∧
    store1Rated.currently_loading = store1.currently_loading :=
  set_rating_immediately_visible
    (@Reachable.init sampleEnv [sampleImage] store1 rfl) rfl

/-- C4 counterexample: on a directory holding one extensionless regular
file the claim predicts the empty catalog (the entry is dropped silently),
but the scan panics in `get_format` on `path.extension().unwrap()`. -/
theorem scan_panics_on_extensionless_file :
    load_available_images [extensionlessEntry] =
      .panicked "called unwrap on a None value" ∧
    load_available_images [extensionlessEntry] ≠ .ok [] :=
  ⟨rfl, by decide⟩

/-- C4 (amended): for a directory in which every regular file has an
extension and metadata is readable for every retained entry, the scan
returns exactly the entries whose extension case-insensitively matches a
supported format, sorted by filename, and the count equals the number of
matching files; unrecognized extensions and non-file entries are dropped
silently. -/
theorem scan_filters_and_sorts {entries : List DirEntry}
    (hext : ∀ e ∈ entries, e.is_file = true → e.ext ≠ none)
    (hmeta : ∀ e ∈ entries, (entryImage e).isSome = true → e.meta_ok = true) :
    load_available_images entries =
      .ok ((sortEntries entries).filterMap entryImage) ∧
    ((sortEntries entries).filterMap entryImage).length =
      entries.countP (fun e => (entryImage e).isSome) ∧
    ((sortEntries entries).filterMap entryImage).Pairwise
      (fun a b : ImageData => strLE a.path b.path = true) := by
  have hperm : (sortEntries entries).Perm entries :=
    List.perm_insertionSort entryLE entries
  refine ⟨?_, ?_, ?_⟩
  · exact scanList_eq_of_wellformed
      (fun e he => hext e (hperm.mem_iff.mp he))
      (fun e he => hmeta e (hperm.mem_iff.mp he))
  · rw [length_filterMap_eq_countP]
    exact hperm.countP_eq _
  · have hs : (sortEntries entries).Pairwise entryLE :=
      @List.sorted_insertionSort DirEntry entryLE _
        ⟨fun a b => charListLE_total a.name.data b.name.data⟩
        ⟨fun _ _ _ h1 h2 => charListLE_trans h1 h2⟩ entries
    rw [List.pairwise_filterMap]
    refine hs.imp ?_
    intro a b hab x hxa y hyb
    show strLE x.path y.path = true
    rw [path_of_entryImage hxa, path_of_entryImage hyb]
    exact hab

/-- C4 witness: a mixed directory (lowercase JPEG, uppercase JPEG, text
file, sub-directory) scans to the two JPEG entries in filename order. -/
theorem scan_filters_and_sorts_witness :
    load_available_images [upperJpgEntry, goodJpgEntry, textEntry, subdirEntry] =
      .ok ((sortEntries [upperJpgEntry, goodJpgEntry, textEntry, subdirEntry]).filterMap
        entryImage) ∧
    ((sortEntries [upperJpgEntry, goodJpgEntry, textEntry, subdirEntry]).filterMap
        entryImage).length =
      [upperJpgEntry, goodJpgEntry, textEntry, subdirEntry].countP
        (fun e => (entryImage e).isSome) ∧
    ((sortEntries [upperJpgEntry, goodJpgEntry, textEntry, subdirEntry]).filterMap
        entryImage).Pairwise (fun a b : ImageData => strLE a.path b.path = true) :=
  scan_filters_and_sorts (by decide) (by decide)

/-- C5: the JPEG decode path emits a buffer whose width and height are the
raw decode's height and width (swapped) exactly for the four orientations in
the 90-or-270-degree rotation family, and the raw dimensions otherwise. -/
theorem jpeg_orientation_dimension_swap (rawW rawH : Nat) (rgba : List Nat)
    (rating : Int) (o : Orientation) :
    ((o = .Rotate90 ∨ o = .Rotate270 ∨ o = .Rotate90FlipH ∨ o = .Rotate270FlipH) →
      (load_image_jpg rawW rawH rgba rating o).width = rawH ∧
      (load_image_jpg rawW rawH rgba rating o).height = rawW) ∧
    (¬(o = .Rotate90 ∨ o = .Rotate270 ∨ o = .Rotate90FlipH ∨ o = .Rotate270FlipH) →
      (load_image_jpg rawW rawH rgba rating o).width = rawW ∧
      (load_image_jpg rawW rawH rgba rating o).height = rawH) := by
  cases o <;>
    refine ⟨fun h => ?_, fun h => ?_⟩ <;>
    first
      | exact ⟨rfl, rfl⟩
      | simp at h

/-- C5 witness: a 3-wide, 5-tall raw decode under `Rotate90` comes out
5-wide and 3-tall. -/
theorem jpeg_orientation_dimension_swap_witness :
    (load_image_jpg 3 5 [] 0 .Rotate90).width = 5 ∧
    (load_image_jpg 3 5 [] 0 .Rotate90).height = 3 :=
  (jpeg_orientation_dimension_swap 3 5 [] 0 .Rotate90).1 (Or.inl rfl)

/-- C6: the claim requires the scan to skip a retained file whose metadata
cannot be read and continue; the source instead panics in the `.expect`
call, aborting the whole directory scan, although the same directory minus
the corrupt file scans fine. This records the divergence of the code. -/
theorem scan_aborts_on_metadata_failure :
    load_available_images [badMetaEntry, goodJpgEntry] =
      .panicked "Image has no metadata" ∧
    load_available_images [goodJpgEntry] =
      .ok [toImageData goodJpgEntry ImageFormat.Jpg] :=
  ⟨by decide, by decide⟩

/-- C7: the claim requires a rating-persistence failure to be reported to
the caller as a failure result; the source instead panics (process
termination) when the metadata container cannot be opened. This records the
divergence of the code at a concrete failing input. -/
theorem set_rating_panics_on_metadata_failure :
    setRating failEnv store1 3 = .panicked "metadata error" := rfl

/-- C8: the claim requires an empty scan result to surface as a reported
error; the source instead panics: `ImageStore::new` indexes
`available_images[0]` on the empty catalog, and `next_image` panics inside
`clamp` (min greater than max) on an empty-catalog store, while the scan
itself returns the empty list without error. -/
theorem empty_catalog_panics :
    load_available_images [] = .ok [] ∧
    (∀ env : Env, storeNew env [] = .panicked "index out of bounds") ∧
    ∀ d : Int, nextImage emptyStore d =
      .panicked "assertion failed: min le max in clamp" :=
  ⟨rfl, fun _ => rfl, fun _ => rfl⟩

/-- C9: after construction and after every cursor move on a reachable
store, every identity in the window of `PRELOAD_NEXT_IMAGE_N = 16` catalog
positions starting at the cursor (truncated at the catalog end) has had its
load requested: it is in the full cache or in the in-flight set. -/
theorem prefetch_window_requested (env : Env) :
    (∀ (avail : List ImageData) (s : ImageStore), storeNew env avail = .ok s →
      ∀ i : Nat, i < PRELOAD_NEXT_IMAGE_N →
      ∀ hi : i < s.available_images.length,
        loadedOrInflight s (s.available_images[i])) ∧
    ∀ (s s1 : ImageStore) (d : Int), Reachable env s → nextImage s d = .ok s1 →
      ∀ i : Nat, s1.current_image_id ≤ i →
        i < s1.current_image_id + PRELOAD_NEXT_IMAGE_N →
      ∀ hi : i < s1.available_images.length,
        loadedOrInflight s1 (s1.available_images[i]) := by
  constructor
  · intro avail s h i h1 hi
    obtain ⟨g1, g2, g3, g4, g5, g6⟩ := storeNew_ok h
    have hi' : i < avail.length := by rw [← g2]; exact hi
    have hw := g6 i h1 hi'
    simp only [g2]
    exact hw
  · intro s s1 d hr hstep i h1 h2 hi
    obtain ⟨j1, j2, j3⟩ := reachable_inv hr
    have hne : ¬ s.available_images.length = 0 := by omega
    obtain ⟨s2, heq, _, _, _, _, g5⟩ := nextImage_ok hne d
    rw [hstep] at heq
    injection heq with heq
    subst heq
    exact g5 i h1 h2 hi

/-- C9 witness: in the freshly built two-image store, the identity at
catalog position 1 is already loaded or in flight. -/
theorem prefetch_window_requested_witness :
    loadedOrInflight store2 bImage :=
  (prefetch_window_requested sampleEnv).1 [sampleImage, bImage] store2 rfl 1
    (by decide) (by decide)

/-- C10: on every reachable store, every catalog identity has a thumbnail
cache entry; consequently `get_thumbnail` takes the cache-hit branch (the
state is unchanged and the cached buffer is returned) and
`get_current_rating` finds a buffer to read. -/
theorem thumbnail_cache_complete {env : Env} {s : ImageStore}
    (h : Reachable env s) :
    (∀ p ∈ s.available_images,
      containsKey s.loaded_images_thumbnails p = true) ∧
    (∃ b, lookupA s.loaded_images_thumbnails s.current_image_path = some b ∧
      getThumbnail env s = (s, b)) ∧
    ∃ r, getCurrentRating s = .ok r := by
  have hinv := reachable_inv h
  have hthumb : containsKey s.loaded_images_thumbnails s.current_image_path = true :=
    hinv.2.2 _ (current_mem_of_inv hinv)
  obtain ⟨b, hb⟩ : ∃ b,
      lookupA s.loaded_images_thumbnails s.current_image_path = some b := by
    unfold containsKey at hthumb
    cases hx : lookupA s.loaded_images_thumbnails s.current_image_path with
    | some b => exact ⟨b, rfl⟩
    | none => rw [hx] at hthumb; cases hthumb
  refine ⟨hinv.2.2, ⟨b, hb, ?_⟩, ?_⟩
  · unfold getThumbnail
    rw [hb]
  · unfold getCurrentRating getCurrentImage
    cases hl : lookupA s.loaded_images s.current_image_path with
    | some full => exact ⟨full.rating, by simp [hl]⟩
    | none => exact ⟨b.rating, by simp [hl, hb]⟩

/-- C10 witness: the freshly built one-image store has a thumbnail for its
only identity, a cache-hit `get_thumbnail`, and a readable rating. -/
theorem thumbnail_cache_complete_witness :
    containsKey store1.loaded_images_thumbnails sampleImage = true ∧
    ∃ r, getCurrentRating store1 = .ok r :=
  ⟨(thumbnail_cache_complete
      (@Reachable.init sampleEnv [sampleImage] store1 rfl)).1 sampleImage
      (by decide),
    (thumbnail_cache_complete
      (@Reachable.init sampleEnv [sampleImage] store1 rfl)).2.2⟩

end Imflow
